import Mathlib

/-!
# Verification of the data-unificator mapping utilities

Shallow embedding of `data_unificator/utils/mapping_utils.py` (pandas-based
conflict detection and resolution over aligned tabular data, plus nested
metadata extraction and value-type conversion), together with theorems
settling the specification claims about it.

Modelling conventions:
* A pandas `DataFrame` is a `DFrame`: a list of column names and a list of
  rows; a row is an association list from column name to `Option Val`,
  where `none` models a missing cell / `NaN`.
* Python `set` iteration order is unspecified; we fix the deterministic
  order given by filtering the first frame's column list.  No claim
  depends on the order of the common-column list.
* `pandas.sort_values` is modelled by a stable insertion sort on the sort
  key.  No claim depends on the order of rows whose sort keys are equal.
* `pandas.groupby` (default `dropna=True`) drops rows having a null in a
  group-key column and is modelled accordingly; groups are listed in
  first-appearance order of their key tuple, which no claim depends on.
* Python `datetime` values are modelled by the `Val.vDate` constructor,
  and `pd.to_datetime(_, errors="coerce")` is modelled by an arbitrary
  parameter `pts : Val -> Option Int` mapping a cell to a comparable
  instant or to `none` (NaT) when unparseable.
-/

/-- A scalar cell / leaf value: a Python `int`, `str` or `datetime.datetime`
(dates are modelled by their year, month, day fields).  `float` values are
not modelled (IEEE floating point); no claim exercises them. -/
inductive Val where
  | vInt (n : Int)
  | vStr (s : String)
  | vDate (y m d : Nat)
deriving DecidableEq, Repr

/-- Python `type(value).__name__` for the modelled leaf values. -/
def typeName : Val → String
  | .vInt _ => "int"
  | .vStr _ => "str"
  | .vDate _ _ _ => "datetime"

/-- A DataFrame row: association list from column name to cell.
`none` models a missing cell (`NaN`). -/
abbrev Row := List (String × Option Val)

/-- Association-list lookup (first matching key). -/
def alookup {α : Type} (c : String) : List (String × α) → Option α
  | [] => none
  | (k, v) :: r => if k = c then some v else alookup c r

/-- The cell of row `r` at column `c`; a column with no entry in the
association list is a missing cell (`NaN`), i.e. `none`. -/
def Row.get (r : Row) (c : String) : Option Val :=
  (alookup c r).getD none

/-- `df[c] = value` restricted to one row: overwrite the entry if the key is
present (keeping its position), otherwise append it at the end — matching
pandas column assignment, which overwrites an existing column in place and
appends a new column at the end. -/
def Row.setCellO (r : Row) (c : String) (v : Option Val) : Row :=
  if (alookup c r).isSome then
    r.map (fun p => if p.1 = c then (c, v) else p)
  else
    r ++ [(c, v)]

def Row.setCell (r : Row) (c : String) (v : Val) : Row :=
  r.setCellO c (some v)

/-- A pandas DataFrame: ordered column names and rows. -/
structure DFrame where
  cols : List String
  rows : List Row
deriving DecidableEq, Repr

/-- `df[c] = v` (a constant column): overwrite an existing column in place,
or append a new column at the end. -/
def DFrame.setCol (df : DFrame) (c : String) (v : Val) : DFrame :=
  { cols := if df.cols.contains c then df.cols else df.cols ++ [c]
    rows := df.rows.map (fun r => r.setCell c v) }

/-- `df.drop(columns=cs)`. -/
def DFrame.dropColumns (df : DFrame) (cs : List String) : DFrame :=
  { cols := df.cols.filter (fun c => !cs.contains c)
    rows := df.rows.map (fun r => r.filter (fun p => !cs.contains p.1)) }

/-- `pd.concat(frames, ignore_index=True, sort=False)`: columns in order of
first appearance, rows concatenated (cells of columns absent from a source
frame stay missing, since `Row.get` returns `none` for absent keys). -/
def concatDF (fs : List DFrame) : DFrame :=
  { cols := fs.foldl (fun acc df => acc ++ df.cols.filter (fun c => !acc.contains c)) []
    rows := (fs.map DFrame.rows).flatten }

/-- `set.intersection(*(set(cols) for cols in l))`, returned in the order of
the first member (Python set order is unspecified; no claim depends on it). -/
def colsInterL (l : List (List String)) : List String :=
  match l with
  | [] => []
  | c :: cs => c.filter (fun x => cs.all (fun d => d.contains x))

/-- First-occurrence deduplication (semantics of inserting into a Python
dict / of `pandas.unique`), written with a `seen` accumulator so that it is
structurally recursive. -/
def dedupGo {α : Type} [DecidableEq α] (seen : List α) : List α → List α
  | [] => []
  | a :: l => if seen.contains a then dedupGo seen l else a :: dedupGo (a :: seen) l

/-- `series.dropna().unique()`: distinct non-null values in order of first
appearance. -/
def distinctNonNull (l : List (Option Val)) : List Val :=
  dedupGo [] (l.filterMap id)

/-- The tuple of values of `r` at the key columns. -/
def keyOf (keys : List String) (r : Row) : List (Option Val) :=
  keys.map (fun c => r.get c)

/-- `df.groupby(keys)` with pandas' default `dropna=True`: rows with a null
in any key column are dropped; each group key is paired with its rows. -/
def groupRows (keys : List String) (rows : List Row) : List (List (Option Val) × List Row) :=
  let vr := rows.filter (fun r => keys.all (fun c => (r.get c).isSome))
  (dedupGo [] (vr.map (keyOf keys))).map
    (fun k => (k, vr.filter (fun r => decide (keyOf keys r = k))))

/-- `df.drop_duplicates(subset=keys, keep="first")`, with a `seen`
accumulator for structural recursion. -/
def dedupByKeysGo (keys : List String) (seen : List (List (Option Val))) : List Row → List Row
  | [] => []
  | r :: rs =>
    if seen.contains (keyOf keys r) then dedupByKeysGo keys seen rs
    else r :: dedupByKeysGo keys (keyOf keys r :: seen) rs

def dedupByKeys (keys : List String) (rows : List Row) : List Row :=
  dedupByKeysGo keys [] rows

/-- Sort key of a row at a bookkeeping column holding `Val.vInt` values
(the only case the resolvers create). -/
def cellInt (o : Option Val) : Int :=
  match o with
  | some (.vInt n) => n
  | _ => 0

/-- `df.sort_values(by, ascending=True)` (stable). -/
def sortRowsAsc (key : Row → Int) (rows : List Row) : List Row :=
  List.insertionSort (fun a b => key a ≤ key b) rows

/-- `df.sort_values(by, ascending=False)` (stable). -/
def sortRowsDesc (key : Row → Int) (rows : List Row) : List Row :=
  List.insertionSort (fun a b => key b ≤ key a) rows

mutual
/-- Non-tabular ("nested") data: arbitrarily deep composition of keyed
mappings (Python `dict`) and sequences (Python `list`), terminating in
scalar leaves.  Encoded as a mutual inductive so that all functions over it
are structurally recursive. -/
inductive Nested where
  | leaf (v : Val)
  | dict (entries : NDict)
  | list (items : NList)
/-- The entry list of a nested dict, in insertion order. -/
inductive NDict where
  | nil
  | cons (key : String) (value : Nested) (rest : NDict)
/-- The element list of a nested list. -/
inductive NList where
  | nil
  | cons (item : Nested) (rest : NList)
end

/-- A source record set: tabular (DataFrame) or nested. -/
inductive SourceData where
  | table (df : DFrame)
  | nested (d : Nested)

def SourceData.isTable : SourceData → Bool
  | .table _ => true
  | .nested _ => false

/-- An aligned data item: source identifier (file name) plus its data. -/
structure AlignedItem where
  file : String
  data : SourceData

/-! ## Metadata extraction over nested data (`extract_fields_metadata`,
non-tabular branch, the inner `traverse`) -/

/-- One field's metadata: runtime type name of the first value seen at the
field path, and at most 5 sample values. -/
structure FieldMeta where
  dtype : String
  sample_values : List Val
deriving DecidableEq, Repr

/-- The metadata dictionary, keyed by dotted field path, in insertion
order. -/
abbrev Meta := List (String × FieldMeta)

/-- The leaf branch of `traverse`'s dict case: create the entry for
`path` with the value's runtime type name and a first sample, or append the
value to `sample_values` if existing and still shorter than
`max_sample_values = 5`. -/
def recordLeaf (md : Meta) (path : String) (x : Val) : Meta :=
  match alookup path md with
  | none => md ++ [(path, ⟨typeName x, [x]⟩)]
  | some fm =>
    if fm.sample_values.length < 5 then
      md.map (fun p => if p.1 = path then (path, ⟨fm.dtype, fm.sample_values ++ [x]⟩) else p)
    else md

/-- Dict keys extend the accumulated dotted path. -/
def extendPath (path key : String) : String :=
  if path = "" then key else path ++ "." ++ key

mutual
/-- The recursive `traverse(data, path)` of `extract_fields_metadata`,
with the mutated `metadata` dict made explicit.  A dict value that is
itself a dict or a list is recursed into with the extended path; a dict
value that is a leaf is recorded; a list is traversed element-wise without
extending the path; any other value (a bare leaf) falls through `pass`. -/
def traverseData (md : Meta) (path : String) : Nested → Meta
  | .leaf _ => md
  | .dict e => traverseDict md path e
  | .list l => traverseList md path l

def traverseDict (md : Meta) (path : String) : NDict → Meta
  | .nil => md
  | .cons k v rest =>
    let cur := extendPath path k
    let md2 :=
      match v with
      | .leaf x => recordLeaf md cur x
      | .dict e => traverseDict md cur e
      | .list l => traverseList md cur l
    traverseDict md2 path rest

def traverseList (md : Meta) (path : String) : NList → Meta
  | .nil => md
  | .cons it rest => traverseList (traverseData md path it) path rest
end

/-- `extract_fields_metadata(data)` for non-tabular data: start from an
empty metadata dict and `traverse(data)` (initial path `""`). -/
def extract_fields_metadata (d : Nested) : Meta :=
  traverseData [] "" d

mutual
/-- The sequence of `(path, value)` pairs actually recorded by `traverse`
(i.e. passed to the leaf branch of its dict case), in traversal order. -/
def recLeaves (path : String) : Nested → List (String × Val)
  | .leaf _ => []
  | .dict e => recLeavesDict path e
  | .list l => recLeavesList path l

def recLeavesDict (path : String) : NDict → List (String × Val)
  | .nil => []
  | .cons k v rest =>
    let cur := extendPath path k
    (match v with
     | .leaf x => [(cur, x)]
     | .dict e => recLeavesDict cur e
     | .list l => recLeavesList cur l) ++ recLeavesDict path rest

def recLeavesList (path : String) : NList → List (String × Val)
  | .nil => []
  | .cons it rest => recLeaves path it ++ recLeavesList path rest
end

mutual
/-- Modelled from the spec's words for the claim about leaves: the sequence
of every leaf (non-dict, non-list value) reached by the traversal, paired
with its accumulated path — dict keys extend the path, list elements are
visited without extending it, and the data root starts at path `""`. -/
def reachedLeaves (path : String) : Nested → List (String × Val)
  | .leaf v => [(path, v)]
  | .dict e => reachedLeavesDict path e
  | .list l => reachedLeavesList path l

def reachedLeavesDict (path : String) : NDict → List (String × Val)
  | .nil => []
  | .cons k v rest => reachedLeaves (extendPath path k) v ++ reachedLeavesDict path rest

def reachedLeavesList (path : String) : NList → List (String × Val)
  | .nil => []
  | .cons it rest => reachedLeaves path it ++ reachedLeavesList path rest
end

/-- Fold a recorded-leaf sequence into a metadata dict. -/
def applyLeaves (md : Meta) (ps : List (String × Val)) : Meta :=
  ps.foldl (fun m q => recordLeaf m q.1 q.2) md

/-- The values recorded at path `p`, in order. -/
def valsAt (p : String) (ps : List (String × Val)) : List Val :=
  ps.filterMap (fun q => if q.1 = p then some q.2 else none)



/-! ## Conflict detection (`detect_conflicts`) -/

/-- The per-item loop shared by `detect_conflicts`: skip non-DataFrame
items, and tag a copy of each DataFrame with the internal source-label
column `_source` holding the item's file name. -/
def tagSource (aligned : List AlignedItem) : List DFrame :=
  aligned.filterMap fun it =>
    match it.data with
    | .table df => some (df.setCol "_source" (.vStr it.file))
    | .nested _ => none

/-- The `source_names` list accumulated by the same loop. -/
def sourceNames (aligned : List AlignedItem) : List String :=
  aligned.filterMap fun it =>
    match it.data with
    | .table _ => some it.file
    | .nested _ => none

/-- The key columns of `detect_conflicts`: columns common to all tagged
frames, minus the internal `_source` label. -/
def dcKeyCols (aligned : List AlignedItem) : List String :=
  (colsInterL ((tagSource aligned).map DFrame.cols)).filter (fun c => c != "_source")

/-- A conflict map: group key tuple, then conflicting column name, then
source identifier with that source's distinct non-null values for that
column within the group. -/
abbrev ConflictMap := List (List (Option Val) × List (String × List (String × List Val)))

/-- `conflicting_values` for one column of one group: for every source (in
insertion order of the `conflicting_values` dict, i.e. first occurrence of
each source name), that source's distinct non-null values for the column
within the group, kept only when non-empty. -/
def sourceValues (source_names : List String) (g : List Row) (c : String) :
    List (String × List Val) :=
  (dedupGo [] source_names).filterMap (fun s =>
    let sv := distinctNonNull
      ((g.filter (fun r => decide (r.get "_source" = some (.vStr s)))).map
        (fun r => r.get c))
    if sv.isEmpty then none else some (s, sv))

/-- `conflicting_fields` for one group: every non-key non-label column of
the combined frame whose distinct non-null values across the group number
more than one, with its per-source values. -/
def conflictingFields (source_names allCols keyCols : List String) (g : List Row) :
    List (String × List (String × List Val)) :=
  allCols.filterMap (fun c =>
    if keyCols.contains c || c == "_source" then none
    else if 2 ≤ (distinctNonNull (g.map (fun r => r.get c))).length then
      some (c, sourceValues source_names g c)
    else none)

/-- The body of `detect_conflicts`' group loop for one group: if the group
has at least 2 distinct `_source` labels, collect its conflicting fields;
the group contributes an entry only if some column qualified. -/
def emitGroup (source_names : List String) (allCols keyCols : List String)
    (kg : List (Option Val) × List Row) :
    Option (List (Option Val) × List (String × List (String × List Val))) :=
  if 2 ≤ (dedupGo [] (kg.2.map (fun r => r.get "_source"))).length then
    let fields := conflictingFields source_names allCols keyCols kg.2
    if fields.isEmpty then none else some (kg.1, fields)
  else none

/-- `detect_conflicts(aligned_data)`: tag tabular items with `_source`,
return empty if none; group the concatenated rows by the columns common to
all tagged frames (minus `_source`), returning empty if there are none,
and emit a conflict entry per group via `emitGroup`.  (The Python builds a
dict keyed by the group-key tuple; group keys are distinct, so the assoc
list is an exact model.  The duplicate-source-name overwrite semantics of
`conflicting_values[source] = ...` is modelled by `dedupGo` on
`source_names`.) -/
def detect_conflicts (aligned : List AlignedItem) : ConflictMap :=
  let frames := tagSource aligned
  if frames = [] then [] else
  let key_columns := dcKeyCols aligned
  if key_columns = [] then [] else
  let combined := concatDF frames
  (groupRows key_columns combined.rows).filterMap
    (emitGroup (sourceNames aligned) combined.cols key_columns)

/-! ## Conflict resolution -/

/-- `source_priority` dict insertion: overwrite the value in place if the
key exists, else append (Python dict semantics). -/
def setAssoc (m : List (String × Nat)) (k : String) (v : Nat) : List (String × Nat) :=
  if (alookup k m).isSome then m.map (fun q => if q.1 = k then (k, v) else q)
  else m ++ [(k, v)]

/-- The `source_priority` dict comprehension: each name of
`source_hierarchy` mapped to its `enumerate` index — on a duplicated name
the later index overwrites the earlier one. -/
def spmGo : List String → Nat → List (String × Nat) → List (String × Nat)
  | [], _, m => m
  | s :: rest, i, m => spmGo rest (i + 1) (setAssoc m s i)

def sourcePriorityMap (hier : List String) : List (String × Nat) :=
  spmGo hier 0 []

/-- `source_priority.get(file_name, len(source_priority))`. -/
def prioOf (hier : List String) (f : String) : Nat :=
  (alookup f (sourcePriorityMap hier)).getD (sourcePriorityMap hier).length

/-- Modelled from the spec's words: the rank of a source under
hierarchy-based resolution is the index of its (first occurrence in the)
caller-supplied ranking list, and a source not in the list gets the worst
(last) rank, i.e. the list's length. -/
def specRank (hier : List String) (f : String) : Nat :=
  match hier with
  | [] => 0
  | g :: gs => if g = f then 0 else specRank gs f + 1

/-- Tag each tabular item's copy with `_source` and a numeric priority
column `pcol` computed from its file name (the shared per-item loop of the
hierarchy- and weight-based resolvers). -/
def tagFrames (aligned : List AlignedItem) (pcol : String) (prio : String → Int) :
    List DFrame :=
  aligned.filterMap fun it =>
    match it.data with
    | .table df =>
      some ((df.setCol "_source" (.vStr it.file)).setCol pcol (.vInt (prio it.file)))
    | .nested _ => none

/-- Keep predicate for the common-column set: discard `_source` and the
strategy's priority column. -/
def keepCol (pcol : String) (c : String) : Bool :=
  c != "_source" && c != pcol

/-- The common-key columns a hierarchy- or weight-based resolver computes:
intersection of the tagged frames' columns minus the bookkeeping columns.
(The priority values do not affect the column sets, so they are fixed
to `0` here; `tagFrames_map_cols` below proves the independence.) -/
def hwKeyCols (aligned : List AlignedItem) (pcol : String) : List String :=
  (colsInterL ((tagFrames aligned pcol (fun _ => 0)).map DFrame.cols)).filter (keepCol pcol)

/-- `resolve_conflicts_hierarchy(aligned_data, source_hierarchy)`. -/
def resolve_conflicts_hierarchy (aligned : List AlignedItem) (source_hierarchy : List String) :
    List AlignedItem :=
  let frames := tagFrames aligned "_priority" (fun f => (prioOf source_hierarchy f : Int))
  if frames = [] then aligned else
  let combined := concatDF frames
  let key_columns := (colsInterL (frames.map DFrame.cols)).filter (keepCol "_priority")
  if key_columns = [] then aligned else
  let sorted := sortRowsAsc (fun r => cellInt (r.get "_priority")) combined.rows
  let resolved := (DFrame.mk combined.cols (dedupByKeys key_columns sorted)).dropColumns
    ["_source", "_priority"]
  [⟨"resolved_data", .table resolved⟩]

/-- Modelled from the spec's words (claim C2): rank each source by the
index of its name in the hierarchy list (unranked sources get the worst,
last rank), sort ascending by rank, keep the first row per duplicate
common-key tuple, and strip the bookkeeping columns. -/
def resolve_hierarchy_spec (aligned : List AlignedItem) (hier : List String) :
    List AlignedItem :=
  let frames := tagFrames aligned "_priority" (fun f => (specRank hier f : Int))
  let combined := concatDF frames
  let key_columns := (colsInterL (frames.map DFrame.cols)).filter (keepCol "_priority")
  let sorted := sortRowsAsc (fun r => cellInt (r.get "_priority")) combined.rows
  [⟨"resolved_data", .table ((DFrame.mk combined.cols (dedupByKeys key_columns sorted)).dropColumns
    ["_source", "_priority"])⟩]

/-- `source_weights.get(file_name, 0)`. -/
def weightOf (weights : List (String × Int)) (f : String) : Int :=
  (alookup f weights).getD 0

/-- `resolve_conflicts_weighted(aligned_data, source_weights)`.  Weights
are numeric in Python; they are modelled as integers (only their order
matters). -/
def resolve_conflicts_weighted (aligned : List AlignedItem) (source_weights : List (String × Int)) :
    List AlignedItem :=
  let frames := tagFrames aligned "_weight" (weightOf source_weights)
  if frames = [] then aligned else
  let combined := concatDF frames
  let key_columns := (colsInterL (frames.map DFrame.cols)).filter (keepCol "_weight")
  if key_columns = [] then aligned else
  let sorted := sortRowsDesc (fun r => cellInt (r.get "_weight")) combined.rows
  let resolved := (DFrame.mk combined.cols (dedupByKeys key_columns sorted)).dropColumns
    ["_source", "_weight"]
  [⟨"resolved_data", .table resolved⟩]

/-- Modelled from the spec's words (claim C3): weight each source by its
caller-supplied numeric weight (default 0 when unspecified), sort
descending by weight, keep the first row per duplicate common-key tuple,
and strip the bookkeeping columns. -/
def resolve_weighted_spec (aligned : List AlignedItem) (source_weights : List (String × Int)) :
    List AlignedItem :=
  let frames := tagFrames aligned "_weight" (weightOf source_weights)
  let combined := concatDF frames
  let key_columns := (colsInterL (frames.map DFrame.cols)).filter (keepCol "_weight")
  let sorted := sortRowsDesc (fun r => cellInt (r.get "_weight")) combined.rows
  [⟨"resolved_data", .table ((DFrame.mk combined.cols (dedupByKeys key_columns sorted)).dropColumns
    ["_source", "_weight"])⟩]

/-- The per-item loop of `resolve_conflicts_time_based`: only DataFrames
having a `timestamp` column participate; they are tagged with `_source`. -/
def tagSourceTs (aligned : List AlignedItem) : List DFrame :=
  aligned.filterMap fun it =>
    match it.data with
    | .table df =>
      if df.cols.contains "timestamp" then some (df.setCol "_source" (.vStr it.file))
      else none
    | .nested _ => none

def keepColTs (c : String) : Bool :=
  c != "_source" && c != "timestamp"

/-- The common-key columns of the time-based resolver: intersection of the
participating frames' columns minus `_source` and `timestamp`. -/
def tsKeyCols (aligned : List AlignedItem) : List String :=
  (colsInterL ((tagSourceTs aligned).map DFrame.cols)).filter keepColTs

/-- `combined_df["timestamp"] = pd.to_datetime(combined_df["timestamp"],
errors="coerce")` for one row, with the parse modelled by `pts` (an
unparseable or missing cell becomes `none`, i.e. NaT). -/
def parseTsRow (pts : Val → Option Int) (r : Row) : Row :=
  r.setCellO "timestamp" (((r.get "timestamp").bind pts).map Val.vInt)

/-- `resolve_conflicts_time_based(aligned_data)`, parameterized by the
`pd.to_datetime` model `pts`. -/
def resolve_conflicts_time_based (pts : Val → Option Int) (aligned : List AlignedItem) :
    List AlignedItem :=
  let frames := tagSourceTs aligned
  if frames = [] then aligned else
  let combined := concatDF frames
  let parsed := combined.rows.map (parseTsRow pts)
  let kept := parsed.filter (fun r => (r.get "timestamp").isSome)
  let key_columns := (colsInterL (frames.map DFrame.cols)).filter keepColTs
  if key_columns = [] then aligned else
  let sorted := sortRowsDesc (fun r => cellInt (r.get "timestamp")) kept
  let resolved := (DFrame.mk combined.cols (dedupByKeys key_columns sorted)).dropColumns
    ["_source", "timestamp"]
  [⟨"resolved_data", .table resolved⟩]

/-- Modelled from the spec's words (claim C4): drop every row whose
timestamp does not parse, sort the remaining rows descending by parsed
timestamp, keep the first row per duplicate common-key tuple (keys
excluding `timestamp`), and strip `_source` and `timestamp`. -/
def resolve_time_spec (pts : Val → Option Int) (aligned : List AlignedItem) :
    List AlignedItem :=
  let frames := tagSourceTs aligned
  let combined := concatDF frames
  let parsed := combined.rows.map (parseTsRow pts)
  let kept := parsed.filter (fun r => (r.get "timestamp").isSome)
  let key_columns := (colsInterL (frames.map DFrame.cols)).filter keepColTs
  let sorted := sortRowsDesc (fun r => cellInt (r.get "timestamp")) kept
  [⟨"resolved_data", .table ((DFrame.mk combined.cols (dedupByKeys key_columns sorted)).dropColumns
    ["_source", "timestamp"])⟩]

/-- `resolve_conflicts(aligned_data, conflicts, strategy, ...)` — the
dispatcher; `Manual` is a pass-through. -/
def resolve_conflicts (aligned : List AlignedItem) (_conflicts : ConflictMap)
    (strategy : String) (source_weights : List (String × Int))
    (source_hierarchy : List String) (pts : Val → Option Int) : List AlignedItem :=
  if strategy = "Manual" then aligned
  else if strategy = "Hierarchy-based" then resolve_conflicts_hierarchy aligned source_hierarchy
  else if strategy = "Weight-based" then resolve_conflicts_weighted aligned source_weights
  else if strategy = "Time-based" then resolve_conflicts_time_based pts aligned
  else aligned

/-- `aligned_data` has at least one tabular item. -/
def hasTable (aligned : List AlignedItem) : Bool :=
  aligned.any (fun it => it.data.isTable)

/-- The number of tabular items of the input. -/
def countTabular (aligned : List AlignedItem) : Nat :=
  (aligned.filter (fun it => it.data.isTable)).length

/-! ## Value-type conversion (`convert_value_to_type`) -/

/-- The decimal digit character for `n < 10`. -/
def digitChar : Nat → Char
  | 0 => '0' | 1 => '1' | 2 => '2' | 3 => '3' | 4 => '4'
  | 5 => '5' | 6 => '6' | 7 => '7' | 8 => '8' | 9 => '9'
  | _ => '*'

/-- The numeric value of a decimal digit character. -/
def digitVal (c : Char) : Nat := c.toNat - 48

/-- The value denoted by a big-endian decimal digit string. -/
def digitsToNat (l : List Char) : Nat :=
  l.foldl (fun a c => a * 10 + digitVal c) 0

/-- Big-endian decimal digits of `n`, fueled for structural recursion
(`natDigits` always supplies enough fuel). -/
def natDigitsGo : Nat → Nat → List Char
  | 0, _ => []
  | fuel + 1, n => if n < 10 then [digitChar n] else natDigitsGo fuel (n / 10) ++ [digitChar (n % 10)]

def natDigits (n : Nat) : List Char :=
  natDigitsGo (n + 1) n

/-- Python `str(x)` for an `int` `x`: minimal decimal representation,
preceded by `-` when negative. -/
def intRepr (x : Int) : String :=
  ⟨if x < 0 then '-' :: natDigits x.natAbs else natDigits x.natAbs⟩

/-- Python `str(value)` for the modelled values (dates render as
`datetime`'s `YYYY-MM-DD 00:00:00`, simplified to dash-joined fields; no
claim depends on it). -/
def pyStr : Val → String
  | .vInt n => intRepr n
  | .vStr s => s
  | .vDate y m d => ⟨natDigits y ++ '-' :: natDigits m ++ '-' :: natDigits d⟩

/-- Strip leading and trailing whitespace (Python `int()` ignores
surrounding whitespace). -/
def stripWs (l : List Char) : List Char :=
  ((l.dropWhile Char.isWhitespace).reverse.dropWhile Char.isWhitespace).reverse

/-- A non-empty all-digit character list, or failure.  (Python's `int()`
additionally accepts underscore separators and non-ASCII digits; those are
not modelled and no claim exercises them.) -/
def digitsOpt (l : List Char) : Option Nat :=
  if l ≠ [] ∧ l.all Char.isDigit then some (digitsToNat l) else none

/-- Sign handling of Python `int(string)`. -/
def parseIntChars (l : List Char) : Option Int :=
  match l with
  | [] => none
  | c :: rest =>
    if c = '-' then (digitsOpt rest).map (fun n => -(n : Int))
    else if c = '+' then (digitsOpt rest).map (fun n => (n : Int))
    else (digitsOpt l).map (fun n => (n : Int))

/-- Python `int(value)` on the modelled values: identity on `int`,
decimal parse on `str` (`ValueError` = `none`), `TypeError` (= `none`) on
`datetime`. -/
def pyInt : Val → Option Int
  | .vInt n => some n
  | .vStr s => parseIntChars (stripWs s.data)
  | .vDate _ _ _ => none

/-- `datetime.strptime(value, "%Y-%m-%d")` on the modelled values: only a
string of shape `YYYY-MM-DD` (digits at the digit positions, `1 <= month
<= 12`, `1 <= day <= 31`) parses; anything else raises (= `none`). -/
def pyStrptime : Val → Option Val
  | .vStr s =>
    match s.data with
    | [a, b, c, d, '-', e, f, '-', g, h] =>
      if [a, b, c, d, e, f, g, h].all Char.isDigit then
        let m := digitsToNat [e, f]
        let dd := digitsToNat [g, h]
        if 1 ≤ m ∧ m ≤ 12 ∧ 1 ≤ dd ∧ dd ≤ 31 then
          some (.vDate (digitsToNat [a, b, c, d]) m dd)
        else none
      else none
    | _ => none
  | _ => none

/-- A conversion-failure report, as sent to `log_error`: the field value
and the target type of the failed conversion. -/
abbrev ConvFailure := Val × String

/-- `convert_value_to_type(value, new_type)` with the `log_error` channel
made explicit: the result value together with the emitted
conversion-failure reports.  On failure the original value is returned
unchanged.  The `float` target of the Python code is not modelled (IEEE
floating point); no claim exercises it. -/
def convert_value_to_type (v : Val) (new_type : String) : Val × List ConvFailure :=
  if new_type = "int" then
    match pyInt v with
    | some n => (.vInt n, [])
    | none => (v, [(v, new_type)])
  else if new_type = "str" then
    (.vStr (pyStr v), [])
  else if new_type = "datetime" then
    match pyStrptime v with
    | some d => (d, [])
    | none => (v, [(v, new_type)])
  else (v, [])

/-- A concrete `pd.to_datetime` model for witnesses: a string of shape
`YYYY-MM-DD` parses to the integer `YYYYMMDD` (which orders
chronologically); everything else is NaT. -/
def pts0 (v : Val) : Option Int :=
  match v with
  | .vStr s =>
    match s.data with
    | [a, b, c, d, '-', e, f, '-', g, h] =>
      if [a, b, c, d, e, f, g, h].all Char.isDigit then
        some (digitsToNat [a, b, c, d, e, f, g, h])
      else none
    | _ => none
  | _ => none


/-! ## Concrete inputs used by witnesses and counterexamples -/

/-- Two same-schema sources sharing key column `id`, both with column `v`,
with differing `v` values on `id = 1` — the concrete input of claim C1. -/
def exSameSchemaDiff : List AlignedItem :=
  [⟨"A", .table ⟨["id", "v"], [[("id", some (.vInt 1)), ("v", some (.vStr "a"))]]⟩⟩,
   ⟨"B", .table ⟨["id", "v"], [[("id", some (.vInt 1)), ("v", some (.vStr "b"))]]⟩⟩]

/-- The same two sources with identical `v` values on the shared `id`. -/
def exSameSchemaEq : List AlignedItem :=
  [⟨"A", .table ⟨["id", "v"], [[("id", some (.vInt 1)), ("v", some (.vStr "a"))]]⟩⟩,
   ⟨"B", .table ⟨["id", "v"], [[("id", some (.vInt 1)), ("v", some (.vStr "a"))]]⟩⟩]

/-- Three sources where column `v` is not common to all (source `C` lacks
it), so `v` stays a non-key column and its disagreement on the shared key
`id = 1` is detectable. -/
def exThreeSources : List AlignedItem :=
  [⟨"A", .table ⟨["id", "v"], [[("id", some (.vInt 1)), ("v", some (.vStr "a"))]]⟩⟩,
   ⟨"B", .table ⟨["id", "v"], [[("id", some (.vInt 1)), ("v", some (.vStr "b"))]]⟩⟩,
   ⟨"C", .table ⟨["id"], [[("id", some (.vInt 1))]]⟩⟩]

/-- The group of the key tuple `(1,)` in `exThreeSources`' combined frame:
all three tagged rows. -/
def exThreeGroup : List Row :=
  [[("id", some (.vInt 1)), ("v", some (.vStr "a")), ("_source", some (.vStr "A"))],
   [("id", some (.vInt 1)), ("v", some (.vStr "b")), ("_source", some (.vStr "B"))],
   [("id", some (.vInt 1)), ("_source", some (.vStr "C"))]]

/-- Two sources sharing only key column `id` and disagreeing in their
private columns `v` resp. `w` on the shared key — the conflicting-rows
input used for the hierarchy- and weight-based resolution examples. -/
def exResolve : List AlignedItem :=
  [⟨"A", .table ⟨["id", "v"], [[("id", some (.vInt 1)), ("v", some (.vStr "a"))]]⟩⟩,
   ⟨"B", .table ⟨["id", "w"], [[("id", some (.vInt 1)), ("w", some (.vStr "b"))]]⟩⟩]

/-- Two sources with `timestamp` columns, sharing only key column `id`,
where `B`'s row is more recent — the time-based resolution example. -/
def exTime : List AlignedItem :=
  [⟨"A", .table ⟨["id", "timestamp"],
      [[("id", some (.vInt 1)), ("timestamp", some (.vStr "2024-01-01"))]]⟩⟩,
   ⟨"B", .table ⟨["id", "timestamp", "w"],
      [[("id", some (.vInt 1)), ("timestamp", some (.vStr "2024-02-01")), ("w", some (.vStr "b"))]]⟩⟩]

/-- A single-tabular-item input (plus one nested item) for claim C6. -/
def exOneTabular : List AlignedItem :=
  [⟨"A", .table ⟨["id", "v"],
      [[("id", some (.vInt 1)), ("v", some (.vStr "a"))],
       [("id", some (.vInt 1)), ("v", some (.vStr "b"))]]⟩⟩,
   ⟨"N", .nested (.leaf (.vInt 0))⟩]

/-- Two tabular sources with no common columns at all. -/
def exNoCommon : List AlignedItem :=
  [⟨"A", .table ⟨["a"], [[("a", some (.vInt 1))]]⟩⟩,
   ⟨"B", .table ⟨["b"], [[("b", some (.vInt 2))]]⟩⟩]

/-- Two tabular sources with `timestamp` columns whose only common column
is `timestamp` itself. -/
def exOnlyTs : List AlignedItem :=
  [⟨"A", .table ⟨["a", "timestamp"],
      [[("a", some (.vInt 1)), ("timestamp", some (.vStr "2024-01-01"))]]⟩⟩,
   ⟨"B", .table ⟨["b", "timestamp"],
      [[("b", some (.vInt 2)), ("timestamp", some (.vStr "2024-02-01"))]]⟩⟩]

/-- A nested input with seven leaves recorded at the same path `a.x`,
the first of value 1, then 2, ..., 7. -/
def exSevenLeaves : Nested :=
  .dict (.cons "a" (.list
    (.cons (.dict (.cons "x" (.leaf (.vInt 1)) .nil))
    (.cons (.dict (.cons "x" (.leaf (.vInt 2)) .nil))
    (.cons (.dict (.cons "x" (.leaf (.vInt 3)) .nil))
    (.cons (.dict (.cons "x" (.leaf (.vInt 4)) .nil))
    (.cons (.dict (.cons "x" (.leaf (.vInt 5)) .nil))
    (.cons (.dict (.cons "x" (.leaf (.vInt 6)) .nil))
    (.cons (.dict (.cons "x" (.leaf (.vInt 7)) .nil))
    .nil)))))))) .nil)

/-- The metadata entry `exSevenLeaves` produces at path `a.x`. -/
def fmSeven : FieldMeta :=
  ⟨"int", [.vInt 1, .vInt 2, .vInt 3, .vInt 4, .vInt 5]⟩

/-- A nested dict whose key `a` holds a list with a bare leaf element:
the leaf is reached by the traversal at path `a` but recorded nowhere. -/
def exBareListLeaf : Nested :=
  .dict (.cons "a" (.list (.cons (.leaf (.vInt 1)) .nil)) .nil)


/-! ## Association-list and deduplication lemmas -/

theorem alookup_append_of_none {α : Type} (c : String) {l₁ : List (String × α)}
    (l₂ : List (String × α)) (h : alookup c l₁ = none) :
    alookup c (l₁ ++ l₂) = alookup c l₂ := by
  induction l₁ with
  | nil => simp
  | cons p r ih =>
    obtain ⟨k, v⟩ := p
    by_cases hk : k = c
    · simp [alookup, hk] at h
    · simp only [alookup, hk, if_false, List.cons_append] at h ⊢
      exact ih h

theorem alookup_append_of_some {α : Type} (c : String) {l₁ : List (String × α)}
    (l₂ : List (String × α)) {v : α} (h : alookup c l₁ = some v) :
    alookup c (l₁ ++ l₂) = some v := by
  induction l₁ with
  | nil => simp [alookup] at h
  | cons p r ih =>
    obtain ⟨k, w⟩ := p
    by_cases hk : k = c
    · simp only [alookup, hk, if_true] at h
      simp [alookup, hk, h]
    · simp only [alookup, hk, if_false] at h ⊢
      exact ih h

/-- A fully evaluated form of the `source_priority` dict on a
duplicate-free hierarchy list: name paired with index, starting at `i`. -/
def rankedList : List String → Nat → List (String × Nat)
  | [], _ => []
  | s :: r, i => (s, i) :: rankedList r (i + 1)

theorem spmGo_eq_rankedList {hier : List String} (hnd : hier.Nodup) :
    ∀ (i : Nat) (m : List (String × Nat)), (∀ s ∈ hier, alookup s m = none) →
      spmGo hier i m = m ++ rankedList hier i := by
  induction hier with
  | nil => intro i m _; simp [spmGo, rankedList]
  | cons s r ih =>
    intro i m hm
    have hs : alookup s m = none := hm s (by simp)
    have hset : setAssoc m s i = m ++ [(s, i)] := by
      simp [setAssoc, hs]
    rw [spmGo, hset, ih hnd.of_cons (i + 1) (m ++ [(s, i)])]
    · simp [rankedList]
    · intro t ht
      have htm : alookup t m = none := hm t (by simp [ht])
      have hts : s ≠ t := by
        rintro rfl
        exact (List.nodup_cons.mp hnd).1 ht
      rw [alookup_append_of_none _ _ htm]
      simp [alookup, hts]

theorem rankedList_length (hier : List String) (i : Nat) :
    (rankedList hier i).length = hier.length := by
  induction hier generalizing i with
  | nil => rfl
  | cons s r ih => simp [rankedList, ih]

theorem rankedList_lookup (f : String) (hier : List String) :
    ∀ i : Nat, (alookup f (rankedList hier i)).getD (i + hier.length) = i + specRank hier f := by
  induction hier with
  | nil => intro i; simp [rankedList, alookup, specRank]
  | cons g r ih =>
    intro i
    by_cases hg : g = f
    · simp [rankedList, alookup, hg, specRank]
    · have h1 : i + (g :: r).length = (i + 1) + r.length := by simp [List.length]; omega
      have h2 : i + specRank (g :: r) f = (i + 1) + specRank r f := by
        simp [specRank, hg]; omega
      rw [h1, h2]
      simpa [rankedList, alookup, hg] using ih (i + 1)

/-- Under a duplicate-free hierarchy list, the code's
`source_priority.get(f, len(source_priority))` equals the spec's rank:
the index of `f` in the list, or the list's length when absent. -/
theorem prioOf_eq_specRank {hier : List String} (hnd : hier.Nodup) (f : String) :
    prioOf hier f = specRank hier f := by
  have hm : sourcePriorityMap hier = rankedList hier 0 := by
    have := spmGo_eq_rankedList hnd 0 [] (by intro s _; rfl)
    simpa [sourcePriorityMap] using this
  have := rankedList_lookup f hier 0
  simp only [Nat.zero_add] at this
  simp [prioOf, hm, rankedList_length, this]

/-! ## Resolver refinement lemmas -/

theorem tagFrames_congr (aligned : List AlignedItem) (pcol : String)
    {p q : String → Int} (h : ∀ f, p f = q f) :
    tagFrames aligned pcol p = tagFrames aligned pcol q := by
  induction aligned with
  | nil => rfl
  | cons it rest ih =>
    cases hd : it.data with
    | table df => simp [tagFrames, hd, h it.file, List.filterMap_cons] at ih ⊢; exact ih
    | nested d => simpa [tagFrames, hd, List.filterMap_cons] using ih

theorem tagFrames_map_cols (aligned : List AlignedItem) (pcol : String)
    (p q : String → Int) :
    (tagFrames aligned pcol p).map DFrame.cols = (tagFrames aligned pcol q).map DFrame.cols := by
  induction aligned with
  | nil => rfl
  | cons it rest ih =>
    cases hd : it.data with
    | table df => simpa [tagFrames, hd, List.filterMap_cons, DFrame.setCol] using ih
    | nested d => simpa [tagFrames, hd, List.filterMap_cons] using ih

theorem keyCols_eq_hwKeyCols (aligned : List AlignedItem) (pcol : String) (p : String → Int) :
    (colsInterL ((tagFrames aligned pcol p).map DFrame.cols)).filter (keepCol pcol) =
      hwKeyCols aligned pcol := by
  unfold hwKeyCols
  rw [tagFrames_map_cols aligned pcol p (fun _ => 0)]

theorem tagFrames_ne_nil {aligned : List AlignedItem} (pcol : String) (p : String → Int)
    (hne : aligned ≠ []) (hall : ∀ it ∈ aligned, it.data.isTable = true) :
    tagFrames aligned pcol p ≠ [] := by
  cases aligned with
  | nil => exact absurd rfl hne
  | cons it rest =>
    have := hall it (by simp)
    cases hd : it.data with
    | table df => simp [tagFrames, hd, List.filterMap_cons]
    | nested d => rw [hd] at this; simp [SourceData.isTable] at this

/-- C2: for every list of aligned tabular items with a non-empty common-key
column set (and a duplicate-free hierarchy list, without which "the index of
its name" is ill-defined), hierarchy-based resolution equals the
spec-described procedure: rank = index of the source name in the hierarchy
list, unranked sources get the worst (last) rank, sort ascending by rank,
keep the first row per duplicate common-key tuple, strip bookkeeping
columns.  The witness instantiates the conflicting-rows example: the
resolved row equals A's row in full. -/
theorem resolve_hierarchy_refines (aligned : List AlignedItem) (hier : List String)
    (hnd : hier.Nodup) (hne : aligned ≠ [])
    (hall : ∀ it ∈ aligned, it.data.isTable = true)
    (hkeys : hwKeyCols aligned "_priority" ≠ []) :
    resolve_conflicts_hierarchy aligned hier = resolve_hierarchy_spec aligned hier := by
  have hframes : tagFrames aligned "_priority" (fun f => (prioOf hier f : Int)) =
      tagFrames aligned "_priority" (fun f => (specRank hier f : Int)) :=
    tagFrames_congr aligned "_priority" (fun f => by rw [prioOf_eq_specRank hnd])
  have hfr : tagFrames aligned "_priority" (fun f => (specRank hier f : Int)) ≠ [] :=
    tagFrames_ne_nil "_priority" _ hne hall
  have hk : (colsInterL ((tagFrames aligned "_priority"
      (fun f => (specRank hier f : Int))).map DFrame.cols)).filter (keepCol "_priority") ≠ [] := by
    rw [keyCols_eq_hwKeyCols]; exact hkeys
  unfold resolve_conflicts_hierarchy resolve_hierarchy_spec
  rw [hframes, if_neg hfr, if_neg hk]

/-- C3: for every list of aligned tabular items with a non-empty common-key
column set, weight-based resolution equals the spec-described procedure:
weight = caller-supplied numeric weight (default 0 when the source is
absent from the mapping), sort descending by weight, keep the first row per
duplicate common-key tuple, strip bookkeeping columns.  The witness
instantiates the conflicting-rows example with weights A=1, B=5: the
resolved row equals B's row in full. -/
theorem resolve_weighted_refines (aligned : List AlignedItem) (weights : List (String × Int))
    (hne : aligned ≠ [])
    (hall : ∀ it ∈ aligned, it.data.isTable = true)
    (hkeys : hwKeyCols aligned "_weight" ≠ []) :
    resolve_conflicts_weighted aligned weights = resolve_weighted_spec aligned weights := by
  have hfr : tagFrames aligned "_weight" (weightOf weights) ≠ [] :=
    tagFrames_ne_nil "_weight" _ hne hall
  have hk : (colsInterL ((tagFrames aligned "_weight"
      (weightOf weights)).map DFrame.cols)).filter (keepCol "_weight") ≠ [] := by
    rw [keyCols_eq_hwKeyCols]; exact hkeys
  unfold resolve_conflicts_weighted resolve_weighted_spec
  rw [if_neg hfr, if_neg hk]

theorem tagSourceTs_ne_nil {aligned : List AlignedItem}
    (hne : aligned ≠ [])
    (hall : ∀ it ∈ aligned, ∃ df, it.data = .table df ∧ df.cols.contains "timestamp" = true) :
    tagSourceTs aligned ≠ [] := by
  cases aligned with
  | nil => exact absurd rfl hne
  | cons it rest =>
    obtain ⟨df, hd, hts⟩ := hall it (by simp)
    have hmem : "timestamp" ∈ df.cols := by simpa using hts
    simp [tagSourceTs, hd, List.filterMap_cons, hmem]

/-- C4: for every list of aligned tabular items each having a `timestamp`
column, with a non-empty common-key column set after excluding `timestamp`,
time-based resolution equals the spec-described procedure for any
timestamp-parse function: rows whose timestamp does not parse are dropped
before grouping, the rest are sorted descending by parsed timestamp, and
the first row per duplicate common-key tuple is kept.  The witness
instantiates the example with timestamps 2024-01-01 (A) and 2024-02-01 (B)
on the same key: the kept row is B's (its `timestamp` column is dropped
from the output, see C10). -/
theorem resolve_time_refines (pts : Val → Option Int) (aligned : List AlignedItem)
    (hne : aligned ≠ [])
    (hall : ∀ it ∈ aligned, ∃ df, it.data = .table df ∧ df.cols.contains "timestamp" = true)
    (hkeys : tsKeyCols aligned ≠ []) :
    resolve_conflicts_time_based pts aligned = resolve_time_spec pts aligned := by
  have hfr : tagSourceTs aligned ≠ [] := tagSourceTs_ne_nil hne hall
  have hk : (colsInterL ((tagSourceTs aligned).map DFrame.cols)).filter keepColTs ≠ [] := hkeys
  unfold resolve_conflicts_time_based resolve_time_spec
  rw [if_neg hfr, if_neg hk]

theorem tagFrames_of_noTable (aligned : List AlignedItem) (pcol : String) (p : String → Int)
    (h : hasTable aligned = false) : tagFrames aligned pcol p = [] := by
  induction aligned with
  | nil => rfl
  | cons it rest ih =>
    simp only [hasTable, List.any_cons, Bool.or_eq_false_iff] at h
    cases hd : it.data with
    | table df => rw [hd] at h; simp [SourceData.isTable] at h
    | nested d =>
      have := ih (by simp [hasTable, h.2])
      simpa [tagFrames, hd, List.filterMap_cons] using this

theorem tagSourceTs_of_noTable (aligned : List AlignedItem)
    (h : hasTable aligned = false) : tagSourceTs aligned = [] := by
  induction aligned with
  | nil => rfl
  | cons it rest ih =>
    simp only [hasTable, List.any_cons, Bool.or_eq_false_iff] at h
    cases hd : it.data with
    | table df => rw [hd] at h; simp [SourceData.isTable] at h
    | nested d =>
      have := ih (by simp [hasTable, h.2])
      simpa [tagSourceTs, hd, List.filterMap_cons] using this

theorem resolve_hierarchy_noop_keys (aligned : List AlignedItem) (hier : List String)
    (hkeys : hwKeyCols aligned "_priority" = []) :
    resolve_conflicts_hierarchy aligned hier = aligned := by
  unfold resolve_conflicts_hierarchy
  by_cases hfr : tagFrames aligned "_priority" (fun f => (prioOf hier f : Int)) = []
  · rw [if_pos hfr]
  · rw [if_neg hfr, keyCols_eq_hwKeyCols, if_pos hkeys]

theorem resolve_weighted_noop_keys (aligned : List AlignedItem) (weights : List (String × Int))
    (hkeys : hwKeyCols aligned "_weight" = []) :
    resolve_conflicts_weighted aligned weights = aligned := by
  unfold resolve_conflicts_weighted
  by_cases hfr : tagFrames aligned "_weight" (weightOf weights) = []
  · rw [if_pos hfr]
  · rw [if_neg hfr, keyCols_eq_hwKeyCols, if_pos hkeys]

theorem resolve_time_noop_keys (pts : Val → Option Int) (aligned : List AlignedItem)
    (hkeys : tsKeyCols aligned = []) :
    resolve_conflicts_time_based pts aligned = aligned := by
  unfold resolve_conflicts_time_based
  by_cases hfr : tagSourceTs aligned = []
  · rw [if_pos hfr]
  · rw [if_neg hfr]
    have : (colsInterL ((tagSourceTs aligned).map DFrame.cols)).filter keepColTs = [] := hkeys
    rw [this, if_pos rfl]

theorem contains_filter_excluded (l cs : List String) (c : String)
    (h : cs.contains c = true) :
    (l.filter (fun x => !cs.contains x)).contains c = false := by
  rw [Bool.eq_false_iff]
  intro hc
  have hm : c ∈ l.filter (fun x => !cs.contains x) := by simpa using hc
  rcases List.mem_filter.mp hm with ⟨_, hp⟩
  simp only [Bool.not_eq_true'] at hp
  rw [h] at hp
  cases hp

/-- C10: whenever time-based resolution produces a resolved table (some
tabular item has a `timestamp` column and the common-key set is non-empty),
the resolved table contains neither the `timestamp` column nor the internal
`_source` label column: both are dropped from the output. -/
theorem resolve_time_drops_bookkeeping (pts : Val → Option Int) (aligned : List AlignedItem)
    (hfr : tagSourceTs aligned ≠ []) (hkeys : tsKeyCols aligned ≠ []) :
    ∃ df : DFrame, resolve_conflicts_time_based pts aligned = [⟨"resolved_data", .table df⟩] ∧
      df.cols.contains "timestamp" = false ∧ df.cols.contains "_source" = false := by
  have hkeys' : List.filter keepColTs (colsInterL (List.map DFrame.cols (tagSourceTs aligned))) ≠ [] :=
    hkeys
  unfold resolve_conflicts_time_based
  rw [if_neg hfr, if_neg hkeys']
  refine ⟨_, rfl, ?_, ?_⟩
  · exact contains_filter_excluded _ _ _ (by decide)
  · exact contains_filter_excluded _ _ _ (by decide)

/-! ## Conflict-detector lemmas -/

theorem alookup_setCellO (r : Row) (c : String) (v : Option Val) :
    alookup c (r.setCellO c v) = some v := by
  unfold Row.setCellO
  by_cases h : (alookup c r).isSome
  · rw [if_pos h]
    induction r with
    | nil => simp [alookup] at h
    | cons p rest ih =>
      obtain ⟨k, w⟩ := p
      by_cases hk : k = c
      · subst hk
        simp only [List.map_cons]
        simp [alookup]
      · simp only [alookup, hk, if_false] at h
        simp only [List.map_cons]
        rw [if_neg (by simpa using hk : ¬((k, w).1 = c))]
        simpa [alookup, hk] using ih h
  · rw [if_neg h]
    have hn : alookup c r = none := by
      cases ha : alookup c r with
      | none => rfl
      | some w => rw [ha] at h; simp at h
    rw [alookup_append_of_none _ _ hn]
    simp [alookup]

theorem Row.get_setCell (r : Row) (c : String) (v : Val) :
    (r.setCell c v).get c = some v := by
  unfold Row.setCell Row.get
  rw [alookup_setCellO]
  rfl

theorem setCol_rows_source (df : DFrame) (c : String) (v : Val) :
    ∀ r ∈ (df.setCol c v).rows, r.get c = some v := by
  intro r hr
  rcases List.mem_map.mp hr with ⟨r0, _, rfl⟩
  exact Row.get_setCell r0 c v

theorem dedupGo_of_seen {α : Type} [DecidableEq α] {l : List α} :
    ∀ seen : List α, (∀ x ∈ l, seen.contains x = true) → dedupGo seen l = [] := by
  induction l with
  | nil => intro seen _; rfl
  | cons a l ih =>
    intro seen h
    rw [dedupGo, if_pos (h a (by simp))]
    exact ih seen (fun x hx => h x (by simp [hx]))

theorem dedupGo_const {α : Type} [DecidableEq α] {l : List α} {a : α}
    (h : ∀ x ∈ l, x = a) : (dedupGo [] l).length ≤ 1 := by
  cases l with
  | nil => simp [dedupGo]
  | cons x l =>
    have hx : x = a := h x (by simp)
    subst hx
    rw [dedupGo, if_neg (by simp)]
    rw [dedupGo_of_seen [x] (fun y hy => by simp [h y (by simp [hy])])]
    simp

theorem groupRows_mem {keys : List String} {rows : List Row}
    {k : List (Option Val)} {g : List Row} (h : (k, g) ∈ groupRows keys rows) :
    g = (rows.filter (fun r => keys.all (fun c => (r.get c).isSome))).filter
      (fun r => decide (keyOf keys r = k)) := by
  unfold groupRows at h
  rcases List.mem_map.mp h with ⟨k', _, heq⟩
  have h1 : k' = k := congrArg Prod.fst heq
  have h2 := congrArg Prod.snd heq
  simp only at h2
  rw [← h2, h1]

theorem tagSource_length (aligned : List AlignedItem) :
    (tagSource aligned).length = countTabular aligned := by
  induction aligned with
  | nil => rfl
  | cons it rest ih =>
    cases hd : it.data with
    | table df =>
      simp only [tagSource, countTabular, List.filterMap_cons, List.filter_cons, hd] at ih ⊢
      simp [SourceData.isTable, ih, countTabular, tagSource]
    | nested d =>
      simp only [tagSource, countTabular, List.filterMap_cons, List.filter_cons, hd] at ih ⊢
      simp [SourceData.isTable, ih, countTabular, tagSource]

theorem tagSource_mem {aligned : List AlignedItem} {d : DFrame} (h : d ∈ tagSource aligned) :
    ∃ (f : String) (df : DFrame), d = df.setCol "_source" (.vStr f) := by
  rcases List.mem_filterMap.mp h with ⟨it, _, hit⟩
  cases hd : it.data with
  | table df0 =>
    rw [hd] at hit
    refine ⟨it.file, df0, ?_⟩
    exact (Option.some.inj hit).symm
  | nested d' => rw [hd] at hit; cases hit

/-- C6: for every input in which fewer than 2 items are tabular (after
discarding non-tabular items), `detect_conflicts` returns an empty
conflict map.  (With one tabular item every group carries a single source
label, so no group qualifies; with none the function returns early.) -/
theorem detect_conflicts_lt_two (aligned : List AlignedItem)
    (h : countTabular aligned < 2) : detect_conflicts aligned = [] := by
  cases hfr : tagSource aligned with
  | nil => simp [detect_conflicts, hfr]
  | cons d rest =>
    have hlen : (tagSource aligned).length < 2 := by rw [tagSource_length]; exact h
    rw [hfr] at hlen
    simp only [List.length_cons] at hlen
    have hrest : rest = [] := List.eq_nil_of_length_eq_zero (by omega)
    subst hrest
    simp only [detect_conflicts, hfr]
    rw [if_neg (show ¬(([d] : List DFrame) = []) by simp)]
    by_cases hk : dcKeyCols aligned = []
    · rw [if_pos hk]
    · rw [if_neg hk]
      apply List.filterMap_eq_nil_iff.mpr
      rintro ⟨k, g⟩ hkg
      obtain ⟨f, df, rfl⟩ := tagSource_mem (show (d : DFrame) ∈ tagSource aligned by
        rw [hfr]; exact List.mem_singleton.mpr rfl)
      have hrows : (concatDF [DFrame.setCol df "_source" (.vStr f)]).rows =
          (DFrame.setCol df "_source" (.vStr f)).rows := by
        simp [concatDF]
      have hg := groupRows_mem hkg
      have hgsrc : ∀ r ∈ g, r.get "_source" = some (.vStr f) := by
        intro r hr
        rw [hg] at hr
        have hr1 := (List.mem_filter.mp hr).1
        have hr2 := (List.mem_filter.mp hr1).1
        rw [hrows] at hr2
        exact setCol_rows_source df "_source" (.vStr f) r hr2
      have hconst : ∀ x ∈ g.map (fun r => r.get "_source"), x = some (.vStr f) := by
        intro x hx
        rcases List.mem_map.mp hx with ⟨r, hr, rfl⟩
        exact hgsrc r hr
      have hle := dedupGo_const hconst
      simp only [emitGroup]
      rw [if_neg (by omega)]

theorem conflictingFields_ne_nil_iff (sn allCols keys : List String) (g : List Row) :
    conflictingFields sn allCols keys g ≠ [] ↔
      ∃ c ∈ allCols, keys.contains c = false ∧ c ≠ "_source" ∧
        2 ≤ (distinctNonNull (g.map (fun r => r.get c))).length := by
  unfold conflictingFields
  rw [Ne, List.filterMap_eq_nil_iff]
  push_neg
  constructor
  · rintro ⟨c, hc, hne⟩
    refine ⟨c, hc, ?_⟩
    by_cases h1 : keys.contains c || c == "_source"
    · rw [if_pos h1] at hne; exact absurd rfl hne
    · rw [if_neg h1] at hne
      simp only [Bool.or_eq_true, not_or] at h1
      by_cases h2 : 2 ≤ (distinctNonNull (g.map (fun r => r.get c))).length
      · exact ⟨by simpa using h1.1, by simpa using h1.2, h2⟩
      · rw [if_neg h2] at hne; exact absurd rfl hne
  · rintro ⟨c, hc, h1, h2, h3⟩
    refine ⟨c, hc, ?_⟩
    have h1' : c ∉ keys := by simpa using h1
    have hb : ¬(keys.contains c || c == "_source") = true := by simp [h1', h2]
    rw [if_neg hb, if_pos h3]
    simp

theorem emitGroup_some_iff (sn allCols keys : List String) (k : List (Option Val))
    (g : List Row) :
    (∃ fs, emitGroup sn allCols keys (k, g) = some (k, fs)) ↔
      (2 ≤ (dedupGo [] (g.map (fun r => r.get "_source"))).length ∧
       ∃ c ∈ allCols, keys.contains c = false ∧ c ≠ "_source" ∧
         2 ≤ (distinctNonNull (g.map (fun r => r.get c))).length) := by
  simp only [emitGroup]
  by_cases hS : 2 ≤ (dedupGo [] (g.map (fun r => r.get "_source"))).length
  · rw [if_pos hS]
    simp only [hS, true_and]
    rw [← conflictingFields_ne_nil_iff sn allCols keys g]
    by_cases hF : conflictingFields sn allCols keys g = []
    · rw [hF]
      simp
    · rw [if_neg (by simpa [List.isEmpty_iff] using hF)]
      simp [hF]
  · rw [if_neg hS]
    simp [hS]

theorem emitGroup_some_key {sn allCols keys : List String}
    {kg : List (Option Val) × List Row} {k : List (Option Val)}
    {fs : List (String × List (String × List Val))}
    (h : emitGroup sn allCols keys kg = some (k, fs)) : kg.1 = k := by
  unfold emitGroup at h
  by_cases hS : 2 ≤ (dedupGo [] (kg.2.map (fun r => r.get "_source"))).length
  · rw [if_pos hS] at h
    by_cases hF : (conflictingFields sn allCols keys kg.2).isEmpty
    · rw [if_pos hF] at h; cases h
    · rw [if_neg hF] at h
      exact congrArg Prod.fst (Option.some.inj h)
  · rw [if_neg hS] at h; cases h

theorem groupRows_functional {keys : List String} {rows : List Row}
    {k : List (Option Val)} {g g' : List Row}
    (h1 : (k, g) ∈ groupRows keys rows) (h2 : (k, g') ∈ groupRows keys rows) : g = g' := by
  rw [groupRows_mem h1, groupRows_mem h2]

/-- A group of the detector's grouped combined frame contributes a conflict
entry exactly when at least two distinct source labels appear in it and
some non-key, non-label column has at least two distinct non-null values
across the group. -/
theorem detect_conflicts_group_iff (aligned : List AlignedItem)
    (hfr : tagSource aligned ≠ []) (hk : dcKeyCols aligned ≠ [])
    (k : List (Option Val)) (g : List Row)
    (hg : (k, g) ∈ groupRows (dcKeyCols aligned) (concatDF (tagSource aligned)).rows) :
    (∃ fs, (k, fs) ∈ detect_conflicts aligned) ↔
      (2 ≤ (dedupGo [] (g.map (fun r => r.get "_source"))).length ∧
       ∃ c ∈ (concatDF (tagSource aligned)).cols, (dcKeyCols aligned).contains c = false ∧
         c ≠ "_source" ∧ 2 ≤ (distinctNonNull (g.map (fun r => r.get c))).length) := by
  have hdc : detect_conflicts aligned =
      (groupRows (dcKeyCols aligned) (concatDF (tagSource aligned)).rows).filterMap
        (emitGroup (sourceNames aligned) (concatDF (tagSource aligned)).cols
          (dcKeyCols aligned)) := by
    simp only [detect_conflicts]
    rw [if_neg hfr, if_neg hk]
  rw [hdc, ← emitGroup_some_iff (sourceNames aligned) (concatDF (tagSource aligned)).cols
    (dcKeyCols aligned) k g]
  constructor
  · rintro ⟨fs, hmem⟩
    rcases List.mem_filterMap.mp hmem with ⟨kg', hkg', hemit⟩
    obtain ⟨k', g'⟩ := kg'
    have hk1 : k' = k := emitGroup_some_key hemit
    subst hk1
    have hgg : g' = g := groupRows_functional hkg' hg
    subst hgg
    exact ⟨fs, hemit⟩
  · rintro ⟨fs, hfs⟩
    exact ⟨fs, List.mem_filterMap.mpr ⟨(k, g), hg, hfs⟩⟩

/-! ## Metadata-extraction lemmas -/

theorem alookup_map_replace_same {α : Type} (md : List (String × α)) (p : String) (w : α)
    (h : (alookup p md).isSome = true) :
    alookup p (md.map (fun e => if e.1 = p then (p, w) else e)) = some w := by
  induction md with
  | nil => simp [alookup] at h
  | cons e rest ih =>
    obtain ⟨k, v⟩ := e
    by_cases hk : k = p
    · subst hk
      simp only [List.map_cons]
      simp [alookup]
    · simp only [alookup, hk, if_false] at h
      simp only [List.map_cons]
      rw [if_neg (by simpa using hk : ¬((k, v).1 = p))]
      simpa [alookup, hk] using ih h

theorem alookup_map_replace_ne {α : Type} (md : List (String × α)) (p q : String) (w : α)
    (h : q ≠ p) :
    alookup q (md.map (fun e => if e.1 = p then (p, w) else e)) = alookup q md := by
  induction md with
  | nil => rfl
  | cons e rest ih =>
    obtain ⟨k, v⟩ := e
    by_cases hk : k = p
    · subst hk
      simp only [List.map_cons]
      simp [alookup, Ne.symm h, ih]
    · simp only [List.map_cons]
      rw [if_neg (by simpa using hk : ¬((k, v).1 = p))]
      by_cases hq : k = q
      · simp [alookup, hq]
      · simp [alookup, hq, ih]

theorem recordLeaf_alookup_ne (md : Meta) (p q : String) (x : Val) (h : q ≠ p) :
    alookup q (recordLeaf md p x) = alookup q md := by
  cases hp : alookup p md with
  | none =>
    simp only [recordLeaf, hp]
    cases hq : alookup q md with
    | none =>
      rw [alookup_append_of_none _ _ hq]
      simp [alookup, Ne.symm h, hq]
    | some w => rw [alookup_append_of_some _ _ hq]
  | some fm =>
    simp only [recordLeaf, hp]
    by_cases hlen : fm.sample_values.length < 5
    · rw [if_pos hlen]
      exact alookup_map_replace_ne md p q _ h
    · rw [if_neg hlen]

theorem recordLeaf_bounded {md : Meta} (p : String) (x : Val)
    (h : ∀ q ∈ md, q.2.sample_values.length ≤ 5) :
    ∀ q ∈ recordLeaf md p x, q.2.sample_values.length ≤ 5 := by
  cases hp : alookup p md with
  | none =>
    simp only [recordLeaf, hp]
    intro q hq
    rcases List.mem_append.mp hq with hq1 | hq2
    · exact h q hq1
    · rcases List.mem_singleton.mp hq2 with rfl
      simp
  | some fm =>
    simp only [recordLeaf, hp]
    by_cases hlen : fm.sample_values.length < 5
    · rw [if_pos hlen]
      intro q hq
      rcases List.mem_map.mp hq with ⟨e, he, rfl⟩
      by_cases hk : e.1 = p
      · rw [if_pos hk]
        have h5 : fm.sample_values.length + 1 ≤ 5 := by omega
        simpa using h5
      · rw [if_neg hk]
        exact h e he
    · rw [if_neg hlen]
      exact h

theorem applyLeaves_append (md : Meta) (xs ys : List (String × Val)) :
    applyLeaves md (xs ++ ys) = applyLeaves (applyLeaves md xs) ys := by
  simp [applyLeaves, List.foldl_append]

mutual
theorem traverseData_eq_applyLeaves (md : Meta) (path : String) (d : Nested) :
    traverseData md path d = applyLeaves md (recLeaves path d) := by
  cases d with
  | leaf v => rfl
  | dict e => exact traverseDict_eq_applyLeaves md path e
  | list l => exact traverseList_eq_applyLeaves md path l

theorem traverseDict_eq_applyLeaves (md : Meta) (path : String) (e : NDict) :
    traverseDict md path e = applyLeaves md (recLeavesDict path e) := by
  cases e with
  | nil => rfl
  | cons k v rest =>
    cases v with
    | leaf x =>
      show traverseDict (recordLeaf md (extendPath path k) x) path rest =
        applyLeaves md ([(extendPath path k, x)] ++ recLeavesDict path rest)
      rw [applyLeaves_append, traverseDict_eq_applyLeaves _ path rest]
      rfl
    | dict e' =>
      show traverseDict (traverseDict md (extendPath path k) e') path rest =
        applyLeaves md (recLeavesDict (extendPath path k) e' ++ recLeavesDict path rest)
      rw [applyLeaves_append, traverseDict_eq_applyLeaves _ path rest,
        traverseDict_eq_applyLeaves md (extendPath path k) e']
    | list l' =>
      show traverseDict (traverseList md (extendPath path k) l') path rest =
        applyLeaves md (recLeavesList (extendPath path k) l' ++ recLeavesDict path rest)
      rw [applyLeaves_append, traverseDict_eq_applyLeaves _ path rest,
        traverseList_eq_applyLeaves md (extendPath path k) l']

theorem traverseList_eq_applyLeaves (md : Meta) (path : String) (l : NList) :
    traverseList md path l = applyLeaves md (recLeavesList path l) := by
  cases l with
  | nil => rfl
  | cons it rest =>
    show traverseList (traverseData md path it) path rest =
      applyLeaves md (recLeaves path it ++ recLeavesList path rest)
    rw [applyLeaves_append, traverseList_eq_applyLeaves _ path rest,
      traverseData_eq_applyLeaves md path it]
end

theorem alookup_mem {α : Type} {md : List (String × α)} {p : String} {v : α}
    (h : alookup p md = some v) : (p, v) ∈ md := by
  induction md with
  | nil => simp [alookup] at h
  | cons e rest ih =>
    obtain ⟨k, w⟩ := e
    by_cases hk : k = p
    · subst hk
      simp [alookup] at h
      subst h
      simp
    · simp only [alookup, hk, if_false] at h
      simp [ih h]

theorem valsAt_cons (p q : String) (x : Val) (rest : List (String × Val)) :
    valsAt p ((q, x) :: rest) = if q = p then x :: valsAt p rest else valsAt p rest := by
  by_cases h : q = p
  · subst h; simp [valsAt, List.filterMap_cons]
  · simp [valsAt, List.filterMap_cons, h]

theorem applyLeaves_alookup_some (ps : List (String × Val)) :
    ∀ (md : Meta) (p : String) (fm : FieldMeta),
      (∀ q ∈ md, q.2.sample_values.length ≤ 5) →
      alookup p md = some fm →
      alookup p (applyLeaves md ps) =
        some ⟨fm.dtype, fm.sample_values ++ (valsAt p ps).take (5 - fm.sample_values.length)⟩ := by
  induction ps with
  | nil =>
    intro md p fm _ hlk
    simp [applyLeaves, valsAt, hlk]
  | cons qx rest ih =>
    obtain ⟨q, x⟩ := qx
    intro md p fm hb hlk
    have happ : applyLeaves md ((q, x) :: rest) = applyLeaves (recordLeaf md q x) rest := rfl
    rw [happ, valsAt_cons]
    by_cases hq : q = p
    · subst hq
      by_cases hlen : fm.sample_values.length < 5
      · have hrl : recordLeaf md q x =
            md.map (fun e => if e.1 = q then
              (q, ⟨fm.dtype, fm.sample_values ++ [x]⟩) else e) := by
          simp only [recordLeaf, hlk, if_pos hlen]
        have hlk' : alookup q (recordLeaf md q x) =
            some ⟨fm.dtype, fm.sample_values ++ [x]⟩ := by
          rw [hrl]
          exact alookup_map_replace_same md q _ (by simp [hlk])
        rw [ih _ q _ (recordLeaf_bounded q x hb) hlk', if_pos rfl]
        have h1 : 5 - fm.sample_values.length = (5 - (fm.sample_values.length + 1)) + 1 := by
          omega
        rw [h1, List.take_succ_cons]
        simp
      · have hle : fm.sample_values.length ≤ 5 := hb _ (alookup_mem hlk)
        have h5 : 5 - fm.sample_values.length = 0 := by omega
        have hrl : recordLeaf md q x = md := by
          simp only [recordLeaf, hlk, if_neg hlen]
        rw [hrl, ih md q fm hb hlk, if_pos rfl, h5]
        simp
    · have hlk' : alookup p (recordLeaf md q x) = some fm := by
        rw [recordLeaf_alookup_ne md q p x (Ne.symm hq)]
        exact hlk
      rw [ih _ p fm (recordLeaf_bounded q x hb) hlk', if_neg hq]

theorem applyLeaves_alookup_none (ps : List (String × Val)) :
    ∀ (md : Meta) (p : String),
      (∀ q ∈ md, q.2.sample_values.length ≤ 5) →
      alookup p md = none →
      (valsAt p ps = [] → alookup p (applyLeaves md ps) = none) ∧
      (∀ x t, valsAt p ps = x :: t →
        alookup p (applyLeaves md ps) = some ⟨typeName x, (x :: t).take 5⟩) := by
  induction ps with
  | nil =>
    intro md p _ hlk
    refine ⟨fun _ => by simpa [applyLeaves] using hlk, fun x t h => by simp [valsAt] at h⟩
  | cons qx rest ih =>
    obtain ⟨q, x⟩ := qx
    intro md p hb hlk
    have happ : applyLeaves md ((q, x) :: rest) = applyLeaves (recordLeaf md q x) rest := rfl
    rw [happ]
    by_cases hq : q = p
    · subst hq
      have hrl : recordLeaf md q x = md ++ [(q, ⟨typeName x, [x]⟩)] := by
        simp only [recordLeaf, hlk]
      have hlk' : alookup q (recordLeaf md q x) = some ⟨typeName x, [x]⟩ := by
        rw [hrl, alookup_append_of_none _ _ hlk]
        simp [alookup]
      have hsome := applyLeaves_alookup_some rest _ q _ (recordLeaf_bounded q x hb) hlk'
      constructor
      · intro hnil
        rw [valsAt_cons, if_pos rfl] at hnil
        cases hnil
      · intro y t heq
        rw [valsAt_cons, if_pos rfl] at heq
        obtain ⟨rfl, rfl⟩ : y = x ∧ t = valsAt q rest := ⟨(List.cons.inj heq).1.symm, (List.cons.inj heq).2.symm⟩
        rw [hsome]
        simp [List.take_succ_cons]
    · have hlk' : alookup p (recordLeaf md q x) = none := by
        rw [recordLeaf_alookup_ne md q p x (Ne.symm hq)]
        exact hlk
      have hrest := ih _ p (recordLeaf_bounded q x hb) hlk'
      rw [valsAt_cons, if_neg hq]
      exact hrest

theorem valsAt_eq_nil_iff (p : String) (ps : List (String × Val)) :
    valsAt p ps = [] ↔ ∀ x, (p, x) ∉ ps := by
  rw [valsAt, List.filterMap_eq_nil_iff]
  constructor
  · intro h x hx
    have := h (p, x) hx
    simp at this
  · intro h q hqm
    by_cases hqp : q.1 = p
    · exfalso
      exact h q.2 (by rw [← hqp]; simpa using hqm)
    · simp [hqp]

/-! ## Integer/string conversion lemmas -/

theorem digitVal_digitChar {n : Nat} (h : n < 10) : digitVal (digitChar n) = n := by
  interval_cases n <;> decide

theorem isDigit_digitChar {n : Nat} (h : n < 10) : (digitChar n).isDigit = true := by
  interval_cases n <;> decide

theorem digitsToNat_append (l : List Char) (c : Char) :
    digitsToNat (l ++ [c]) = digitsToNat l * 10 + digitVal c := by
  simp [digitsToNat, List.foldl_append]

theorem natDigitsGo_spec : ∀ fuel n : Nat, n < fuel →
    digitsToNat (natDigitsGo fuel n) = n ∧ natDigitsGo fuel n ≠ [] ∧
      ∀ c ∈ natDigitsGo fuel n, c.isDigit = true := by
  intro fuel
  induction fuel with
  | zero => intro n h; omega
  | succ f ih =>
    intro n h
    by_cases h10 : n < 10
    · simp only [natDigitsGo, if_pos h10]
      refine ⟨?_, by simp, ?_⟩
      · simp [digitsToNat, digitVal_digitChar h10]
      · intro c hc
        rcases List.mem_singleton.mp hc with rfl
        exact isDigit_digitChar h10
    · simp only [natDigitsGo, if_neg h10]
      have hlt : n / 10 < f := by
        have h1 : n / 10 < n := Nat.div_lt_self (by omega) (by omega)
        omega
      obtain ⟨d1, d2, d3⟩ := ih (n / 10) hlt
      refine ⟨?_, by simp, ?_⟩
      · rw [digitsToNat_append, d1, digitVal_digitChar (Nat.mod_lt n (by omega))]
        omega
      · intro c hc
        rcases List.mem_append.mp hc with hc1 | hc2
        · exact d3 c hc1
        · rcases List.mem_singleton.mp hc2 with rfl
          exact isDigit_digitChar (Nat.mod_lt n (by omega))

theorem natDigits_spec (n : Nat) :
    digitsToNat (natDigits n) = n ∧ natDigits n ≠ [] ∧
      ∀ c ∈ natDigits n, c.isDigit = true :=
  natDigitsGo_spec (n + 1) n (by omega)

theorem not_ws_of_digit {c : Char} (h : c.isDigit = true) : c.isWhitespace = false := by
  cases hw : c.isWhitespace
  · rfl
  · exfalso
    simp only [Char.isWhitespace, Bool.or_eq_true, decide_eq_true_eq] at hw
    rcases hw with ((rfl | rfl) | rfl) | rfl <;> exact absurd h (by decide)

theorem dropWhile_ws_all_digits (l : List Char) (h : ∀ c ∈ l, c.isDigit = true) :
    l.dropWhile Char.isWhitespace = l := by
  cases l with
  | nil => rfl
  | cons c rest =>
    rw [List.dropWhile_cons, if_neg (by simp [not_ws_of_digit (h c (by simp))])]

theorem stripWs_all_digits (l : List Char) (h : ∀ c ∈ l, c.isDigit = true) :
    stripWs l = l := by
  unfold stripWs
  rw [dropWhile_ws_all_digits l h,
    dropWhile_ws_all_digits l.reverse (fun c hc => h c (List.mem_reverse.mp hc)),
    List.reverse_reverse]

theorem stripWs_neg (l : List Char) (hne : l ≠ []) (h : ∀ c ∈ l, c.isDigit = true) :
    stripWs ('-' :: l) = '-' :: l := by
  unfold stripWs
  rw [List.dropWhile_cons, if_neg (by decide), List.reverse_cons]
  cases hrev : l.reverse with
  | nil => exact absurd (by simpa using hrev) hne
  | cons c' rest' =>
    have hc' : c'.isDigit = true := h c' (List.mem_reverse.mp (by rw [hrev]; simp))
    rw [List.cons_append, List.dropWhile_cons, if_neg (by simp [not_ws_of_digit hc'])]
    rw [← List.cons_append, ← hrev, ← List.reverse_cons, List.reverse_reverse]

theorem digitsOpt_eq (l : List Char) (hne : l ≠ []) (hd : ∀ c ∈ l, c.isDigit = true) :
    digitsOpt l = some (digitsToNat l) := by
  have hcond : l ≠ [] ∧ l.all Char.isDigit := by
    exact ⟨hne, List.all_eq_true.mpr (fun c hc => by simpa using hd c hc)⟩
  unfold digitsOpt
  exact if_pos hcond

theorem pyInt_intRepr (x : Int) : pyInt (.vStr (intRepr x)) = some x := by
  obtain ⟨d1, d2, d3⟩ := natDigits_spec x.natAbs
  show parseIntChars (stripWs (String.data (intRepr x))) = some x
  by_cases hx : x < 0
  · have hdata : (intRepr x).data = '-' :: natDigits x.natAbs := by
      simp [intRepr, if_pos hx]
    rw [hdata, stripWs_neg _ d2 d3]
    simp only [parseIntChars, if_pos rfl]
    rw [digitsOpt_eq _ d2 d3, d1]
    show some (-(x.natAbs : Int)) = some x
    exact congrArg some (by omega)
  · have hdata : (intRepr x).data = natDigits x.natAbs := by
      simp [intRepr, if_neg hx]
    rw [hdata, stripWs_all_digits _ d3]
    cases hnd : natDigits x.natAbs with
    | nil => exact absurd hnd d2
    | cons c rest =>
      have hcd : c.isDigit = true := d3 c (by rw [hnd]; simp)
      have hc1 : ¬(c = '-') := fun hc => by rw [hc] at hcd; exact absurd hcd (by decide)
      have hc2 : ¬(c = '+') := fun hc => by rw [hc] at hcd; exact absurd hcd (by decide)
      simp only [parseIntChars, if_neg hc1, if_neg hc2]
      rw [← hnd, digitsOpt_eq _ d2 d3, d1]
      show some ((x.natAbs : Int)) = some x
      exact congrArg some (by omega)

/-! ## Claim theorems, witnesses and counterexamples -/

theorem mem_of_mem_valsAt {p : String} {x : Val} {ps : List (String × Val)}
    (h : x ∈ valsAt p ps) : (p, x) ∈ ps := by
  rcases List.mem_filterMap.mp h with ⟨q, hq, hqx⟩
  by_cases hqp : q.1 = p
  · simp only [if_pos hqp, Option.some.injEq] at hqx
    have : q = (p, x) := Prod.ext hqp hqx
    rw [← this]
    exact hq
  · simp [hqp] at hqx

/-- C1 counterexample: the claim's concrete example is false on the code.
Two tabular sources that both carry columns `id` and `v`, with rows
`id = 1, v = "a"` (A) and `id = 1, v = "b"` (B), yield NO conflict entry —
not one entry for key `(1,)` — because `v`, being common to all sources,
becomes part of the group key, so the two rows land in different groups. -/
theorem c1_detect_conflicts_example_counterexample :
    detect_conflicts exSameSchemaDiff = [] := rfl

/-- C1 (amended): a group contributes a conflict entry iff at least 2
distinct source labels appear in the group and some non-key, non-label
column has more than one distinct non-null value across the group; but the
two-source same-schema example yields no entry (with differing `v` values
the rows fall into different groups since `v` is a key column; with
identical `v` values the single group has no non-key column to disagree
on). -/
theorem c1_detect_conflicts_amended :
    (∀ aligned : List AlignedItem, tagSource aligned ≠ [] → dcKeyCols aligned ≠ [] →
      ∀ (k : List (Option Val)) (g : List Row),
        (k, g) ∈ groupRows (dcKeyCols aligned) (concatDF (tagSource aligned)).rows →
        ((∃ fs, (k, fs) ∈ detect_conflicts aligned) ↔
          (2 ≤ (dedupGo [] (g.map (fun r => r.get "_source"))).length ∧
           ∃ c ∈ (concatDF (tagSource aligned)).cols,
             (dcKeyCols aligned).contains c = false ∧ c ≠ "_source" ∧
             2 ≤ (distinctNonNull (g.map (fun r => r.get c))).length))) ∧
    detect_conflicts exSameSchemaDiff = [] ∧
    detect_conflicts exSameSchemaEq = [] :=
  ⟨detect_conflicts_group_iff, rfl, rfl⟩

/-- C1 witness: on the three-source input (where `v` is not common to all
sources) the characterization fires and an entry for key `(1,)` exists. -/
theorem c1_detect_conflicts_amended_witness :
    ∃ fs, ([some (Val.vInt 1)], fs) ∈ detect_conflicts exThreeSources := by
  have h := c1_detect_conflicts_amended.1 exThreeSources (by decide) (by decide)
    [some (Val.vInt 1)] exThreeGroup (by decide)
  exact h.mpr (by decide)

/-- C2 witness: hierarchy `["A", "B"]` with A's and B's rows sharing key
`id = 1`; the resolved row is A's row in full. -/
theorem resolve_hierarchy_refines_witness :
    resolve_conflicts_hierarchy exResolve ["A", "B"] =
      [⟨"resolved_data", .table ⟨["id", "v", "w"],
        [[("id", some (.vInt 1)), ("v", some (.vStr "a"))]]⟩⟩] := by
  rw [resolve_hierarchy_refines exResolve ["A", "B"] (by decide) (by simp [exResolve])
    (by decide) (by decide)]
  rfl

/-- C3 witness: weights `A = 1, B = 5` on the same conflicting rows; the
resolved row is B's row in full. -/
theorem resolve_weighted_refines_witness :
    resolve_conflicts_weighted exResolve [("A", 1), ("B", 5)] =
      [⟨"resolved_data", .table ⟨["id", "v", "w"],
        [[("id", some (.vInt 1)), ("w", some (.vStr "b"))]]⟩⟩] := by
  rw [resolve_weighted_refines exResolve [("A", 1), ("B", 5)] (by simp [exResolve])
    (by decide) (by decide)]
  rfl

/-- C4 witness: timestamps 2024-01-01 (A) and 2024-02-01 (B) on the shared
key `id = 1`; the kept row is B's (with `timestamp` dropped from the
output). -/
theorem resolve_time_refines_witness :
    resolve_conflicts_time_based pts0 exTime =
      [⟨"resolved_data", .table ⟨["id", "w"],
        [[("id", some (.vInt 1)), ("w", some (.vStr "b"))]]⟩⟩] := by
  rw [resolve_time_refines pts0 exTime (by simp [exTime])
    (by
      intro it hit
      simp only [exTime, List.mem_cons, List.not_mem_nil, or_false] at hit
      rcases hit with rfl | rfl
      · exact ⟨_, rfl, by decide⟩
      · exact ⟨_, rfl, by decide⟩)
    (by decide)]
  rfl

/-- C5: the structural no-op fallbacks.  If no tabular items exist, each of
the hierarchy-, weight- and time-based strategies returns the original
input list unchanged; likewise when the strategy's common-key column set
(after excluding its bookkeeping columns, and `timestamp` for the
time-based strategy) is empty. -/
theorem c5_resolve_noop_fallbacks (aligned : List AlignedItem) (hier : List String)
    (weights : List (String × Int)) (pts : Val → Option Int) :
    (hasTable aligned = false →
      resolve_conflicts_hierarchy aligned hier = aligned ∧
      resolve_conflicts_weighted aligned weights = aligned ∧
      resolve_conflicts_time_based pts aligned = aligned) ∧
    (hwKeyCols aligned "_priority" = [] → resolve_conflicts_hierarchy aligned hier = aligned) ∧
    (hwKeyCols aligned "_weight" = [] → resolve_conflicts_weighted aligned weights = aligned) ∧
    (tsKeyCols aligned = [] → resolve_conflicts_time_based pts aligned = aligned) := by
  refine ⟨fun hnt => ⟨?_, ?_, ?_⟩, resolve_hierarchy_noop_keys aligned hier,
    resolve_weighted_noop_keys aligned weights, resolve_time_noop_keys pts aligned⟩
  · unfold resolve_conflicts_hierarchy
    rw [if_pos (tagFrames_of_noTable aligned _ _ hnt)]
  · unfold resolve_conflicts_weighted
    rw [if_pos (tagFrames_of_noTable aligned _ _ hnt)]
  · unfold resolve_conflicts_time_based
    rw [if_pos (tagSourceTs_of_noTable aligned hnt)]

/-- C5 witness: a no-tabular-items input (the empty list), two sources with
no common columns, and two sources whose only common column is `timestamp`
itself, each left unchanged by the applicable strategies. -/
theorem c5_resolve_noop_fallbacks_witness :
    (resolve_conflicts_hierarchy ([] : List AlignedItem) [] = [] ∧
     resolve_conflicts_weighted ([] : List AlignedItem) [] = [] ∧
     resolve_conflicts_time_based pts0 ([] : List AlignedItem) = []) ∧
    resolve_conflicts_hierarchy exNoCommon ["A"] = exNoCommon ∧
    resolve_conflicts_weighted exNoCommon [] = exNoCommon ∧
    resolve_conflicts_time_based pts0 exOnlyTs = exOnlyTs := by
  refine ⟨(c5_resolve_noop_fallbacks [] [] [] pts0).1 (by decide),
    (c5_resolve_noop_fallbacks exNoCommon ["A"] [] pts0).2.1 (by decide),
    (c5_resolve_noop_fallbacks exNoCommon [] [] pts0).2.2.1 (by decide),
    (c5_resolve_noop_fallbacks exOnlyTs [] [] pts0).2.2.2 (by decide)⟩

/-- C6 witness: one tabular item (with two rows on the same key and
differing values) plus a nested item — fewer than two tabular items, so the
conflict map is empty. -/
theorem detect_conflicts_lt_two_witness : detect_conflicts exOneTabular = [] :=
  detect_conflicts_lt_two exOneTabular (by decide)

/-- C7: every entry of the metadata extracted from a nested input has at
most 5 sample values, and the sample list is exactly the first 5 values
recorded at its path in traversal order — so values appear in first-seen
order and duplicates are not deduplicated. -/
theorem c7_sample_values_bounded (d : Nested) (p : String) (fm : FieldMeta)
    (h : alookup p (extract_fields_metadata d) = some fm) :
    fm.sample_values.length ≤ 5 ∧
      fm.sample_values = (valsAt p (recLeaves "" d)).take 5 := by
  have hext : extract_fields_metadata d = applyLeaves [] (recLeaves "" d) :=
    traverseData_eq_applyLeaves [] "" d
  rw [hext] at h
  have hchar := applyLeaves_alookup_none (recLeaves "" d) [] p (by simp) rfl
  cases hv : valsAt p (recLeaves "" d) with
  | nil => rw [hchar.1 hv] at h; cases h
  | cons x t =>
    rw [hchar.2 x t hv] at h
    obtain rfl := Option.some.inj h
    constructor
    · exact List.length_take_le 5 (x :: t)
    · rfl

/-- C7 witness: seven leaves recorded at path `a.x`; the entry keeps only
the first five values, in order. -/
theorem c7_sample_values_bounded_witness :
    alookup "a.x" (extract_fields_metadata exSevenLeaves) = some fmSeven ∧
      fmSeven.sample_values.length ≤ 5 ∧
      fmSeven.sample_values = (valsAt "a.x" (recLeaves "" exSevenLeaves)).take 5 :=
  ⟨rfl, c7_sample_values_bounded exSevenLeaves "a.x" fmSeven rfl⟩

/-- C8 counterexample: the claim says every leaf reached by the traversal
creates or updates the metadata entry for its accumulated path, including
leaves reached as elements of a list.  But a bare leaf that is a direct
list element falls through the traversal's final `pass` branch: for the
input `dict a -> list [1]`, the leaf 1 is reached at path `a`, yet the
extracted metadata is empty and has no entry at `a`. -/
theorem c8_reached_leaf_counterexample :
    reachedLeaves "" exBareListLeaf = [("a", Val.vInt 1)] ∧
      extract_fields_metadata exBareListLeaf = [] ∧
      alookup "a" (extract_fields_metadata exBareListLeaf) = none :=
  ⟨rfl, rfl, rfl⟩

/-- C8 (amended): a path has a metadata entry exactly when some leaf is
recorded at it by the dict branch of the traversal (a leaf value of a dict
key, reached with the accumulated path; dict/list values of dict keys are
recursed into, and list elements are visited without extending the path) —
whereas a bare leaf that is a direct list element, or the root itself,
produces no entry. -/
theorem c8_recorded_leaf_iff (d : Nested) (p : String) :
    (alookup p (extract_fields_metadata d)).isSome = true ↔
      ∃ x, (p, x) ∈ recLeaves "" d := by
  have hext : extract_fields_metadata d = applyLeaves [] (recLeaves "" d) :=
    traverseData_eq_applyLeaves [] "" d
  rw [hext]
  have hchar := applyLeaves_alookup_none (recLeaves "" d) [] p (by simp) rfl
  cases hv : valsAt p (recLeaves "" d) with
  | nil =>
    rw [hchar.1 hv]
    simp only [Option.isSome_none, Bool.false_eq_true, false_iff, not_exists]
    rw [valsAt_eq_nil_iff] at hv
    exact fun x => hv x
  | cons x t =>
    rw [hchar.2 x t hv]
    simp only [Option.isSome_some, true_iff]
    exact ⟨x, mem_of_mem_valsAt (by rw [hv]; simp)⟩

/-- C9: converting any integer to `str` emits no report, converting the
result back to `int` recovers the integer exactly (and emits no report);
and converting the non-numeric string `not-a-number` to `int` returns the
string unchanged and emits exactly one conversion-failure report. -/
theorem c9_convert_roundtrip :
    (∀ x : Int,
      (convert_value_to_type (.vInt x) "str").2 = [] ∧
      convert_value_to_type (convert_value_to_type (.vInt x) "str").1 "int" =
        (.vInt x, [])) ∧
    convert_value_to_type (.vStr "not-a-number") "int" =
      (.vStr "not-a-number", [(.vStr "not-a-number", "int")]) := by
  refine ⟨fun x => ⟨rfl, ?_⟩, rfl⟩
  show convert_value_to_type (.vStr (intRepr x)) "int" = (.vInt x, [])
  unfold convert_value_to_type
  rw [if_pos rfl, pyInt_intRepr x]

/-- C10 witness: the time-based example input; the resolved table exists
and contains neither `timestamp` nor `_source`. -/
theorem resolve_time_drops_bookkeeping_witness :
    ∃ df : DFrame, resolve_conflicts_time_based pts0 exTime =
      [⟨"resolved_data", .table df⟩] ∧
      df.cols.contains "timestamp" = false ∧ df.cols.contains "_source" = false :=
  resolve_time_drops_bookkeeping pts0 exTime (by decide) (by decide)
